import Mathlib

/-!
Shallow embedding of the elevenlabs-cli repository (Rust) for verification.

Modules embedded:
  * `src/errors.rs`   — error classification, backoff, retry loop
  * `src/utils.rs`    — `format_to_extension`, `parse_output_format`
  * `src/validation/voice_settings.rs` — voice-settings range validation
  * `src/config.rs`   — `Config` record, `set`/`unset`, TOML round trip
  * `src/audio.rs`    — `StreamingPlayer` chunk-forwarding thread

Conventions: Rust `String`s used only through their character content are
`List Char`; machine integers are `Nat` with explicit bounds where overflow
matters (checked/debug semantics: an arithmetic overflow or underflow panic
is `Option.none`); fallible functions return `Except`.
-/

namespace ElevenLabs

/-! ### Character-list string helpers (Rust `str::contains`, `to_lowercase`) -/

/-- Rust `str::to_lowercase` restricted to its per-character action
(the error-classifier tokens are all ASCII). -/
def lowerChars (s : List Char) : List Char := s.map Char.toLower

/-- Rust `str::contains(needle)`: does `needle` occur as a contiguous
substring of `hay`? -/
def containsSub (hay needle : List Char) : Bool :=
  match hay with
  | [] => needle.isEmpty
  | _ :: rest => needle.isPrefixOf hay || containsSub rest needle

/-! ### `src/errors.rs` — error taxonomy and classification

An `anyhow::Error` enters this module only through its `Display` text,
so an error is embedded as that text (`List Char`). -/

def INITIAL_BACKOFF_MS : Nat := 1000

def MAX_BACKOFF_MS : Nat := 30000

def MAX_RETRIES : Nat := 3

/-- `ApiError` from `src/errors.rs`. -/
inductive ApiError where
  | missingApiKey
  | unauthorized
  | forbidden (feature : List Char)
  | notFound (resource : List Char)
  | rateLimited
  | serverError (code : Nat) (msg : List Char)
  | networkError (msg : List Char)
  | timeout
  | other (msg : List Char)
deriving DecidableEq

/-- `Retryable` from `src/errors.rs`. -/
inductive Retryable where
  | yes
  | no
  | yesWithBackoff
deriving DecidableEq

/-- `ApiError::retryable`. -/
def ApiError.retryable : ApiError → Retryable
  | .missingApiKey => .no
  | .unauthorized => .no
  | .forbidden _ => .no
  | .notFound _ => .no
  | .rateLimited => .yesWithBackoff
  | .serverError _ _ => .yes
  | .networkError _ => .yes
  | .timeout => .yes
  | .other _ => .yes

/-- `is_missing_api_key`. -/
def is_missing_api_key (e : List Char) : Bool :=
  let s := lowerChars e
  containsSub s ("api key".data) &&
    (containsSub s ("required".data) || containsSub s ("none".data))

/-- `is_unauthorized`. -/
def is_unauthorized (e : List Char) : Bool :=
  let s := lowerChars e
  containsSub s ("401".data) || containsSub s ("unauthorized".data) ||
    containsSub s ("invalid api key".data)

/-- `is_forbidden`. -/
def is_forbidden (e : List Char) : Bool :=
  let s := lowerChars e
  containsSub s ("403".data) || containsSub s ("forbidden".data) ||
    containsSub s ("permission denied".data)

/-- `is_not_found`. -/
def is_not_found (e : List Char) : Bool :=
  let s := lowerChars e
  containsSub s ("404".data) || containsSub s ("not found".data)

/-- `is_rate_limited`. -/
def is_rate_limited (e : List Char) : Bool :=
  let s := lowerChars e
  containsSub s ("429".data) || containsSub s ("rate limit".data) ||
    containsSub s ("too many requests".data)

/-- `is_server_error`. -/
def is_server_error (e : List Char) : Bool :=
  let s := lowerChars e
  containsSub s ("500".data) || containsSub s ("502".data) ||
    containsSub s ("503".data) || containsSub s ("504".data) ||
    containsSub s ("server error".data)

/-- `is_network_error`. -/
def is_network_error (e : List Char) : Bool :=
  let s := lowerChars e
  containsSub s ("connection".data) || containsSub s ("network".data) ||
    containsSub s ("timeout".data) || containsSub s ("connect".data)

/-- `parse_api_error`: the if-chain of classifiers, in source order. -/
def parse_api_error (e : List Char) : ApiError :=
  if is_missing_api_key e then .missingApiKey
  else if is_unauthorized e then .unauthorized
  else if is_forbidden e then .forbidden ("Unknown feature".data)
  else if is_not_found e then .notFound ("Unknown resource".data)
  else if is_rate_limited e then .rateLimited
  else if is_server_error e then .serverError 500 e
  else if is_network_error e then .networkError e
  else .other e

/-- `is_retryable`. -/
def is_retryable (e : List Char) : Retryable :=
  (parse_api_error e).retryable

/-! ### `src/errors.rs` — backoff computation

`calculate_backoff` runs on `u64` with Rust debug (checked) arithmetic:
the result is `none` when a `-`/`pow`/`*` overflow panic is reached.
The pseudo-random jitter source (`rand_simple`, a `u32`) is passed in
as the parameter `rand`. -/

def U64_MAX : Nat := 2 ^ 64 - 1

/-- `rand_simple`: `nanos.wrapping_mul(1103515245).wrapping_add(12345)`
on `u32`, with the clock's `subsec_nanos` passed in. -/
def rand_simple (nanos : Nat) : Nat :=
  (nanos % 2 ^ 32 * 1103515245 + 12345) % 2 ^ 32

/-- `calculate_backoff(attempt, retryable)` with the `u32` jitter source
`rand` explicit.  `none` models an arithmetic-overflow panic:
`attempt - 1` underflows `u32` at `attempt = 0`, `2u64.pow(attempt-1)`
overflows for `attempt - 1 ≥ 64`, and the multiplication
`INITIAL_BACKOFF_MS * 2^(attempt-1)` overflows `u64` once it exceeds
`U64_MAX`.  The jitter expression `(rand as u64) * delay / 4000` cannot
overflow since `rand < 2^32` and `delay ≤ 30000`. -/
def calculate_backoff (attempt : Nat) (retryable : Retryable) (rand : Nat) :
    Option Nat :=
  match retryable with
  | .yesWithBackoff =>
      let base_delay := INITIAL_BACKOFF_MS * 4
      let delay := min base_delay MAX_BACKOFF_MS
      let jitter := rand % 2 ^ 32 * delay / 4000
      some (delay + jitter)
  | .yes =>
      if attempt = 0 then none
      else if U64_MAX < 2 ^ (attempt - 1) then none
      else if U64_MAX < INITIAL_BACKOFF_MS * 2 ^ (attempt - 1) then none
      else
        let base_delay := INITIAL_BACKOFF_MS * 2 ^ (attempt - 1)
        let delay := min base_delay MAX_BACKOFF_MS
        let jitter := rand % 2 ^ 32 * delay / 4000
        some (delay + jitter)
  | .no => some 0

/-! ### `src/errors.rs` — `with_retry`

The operation is embedded as a function from the attempt number (1-based)
to its outcome, an `Except` over the error's display text.  The loop
`for attempt in 1..=max_retries` is run on fuel `max_retries - attempt + 1`.
Besides the result we record the number of invocations of the operation
and the `(attempt, retryable)` arguments of every `calculate_backoff`
call made before a sleep. -/

structure RetryTrace (T : Type) where
  result : Except (List Char) T
  calls : Nat
  backoffs : List (Nat × Retryable)

/-- The body of `with_retry`'s loop: `attempt` is the current attempt
number, the fuel counts the iterations still allowed
(`max_retries - attempt + 1`), `lastError` is `last_error`. -/
def withRetryLoop {T : Type} (op : Nat → Except (List Char) T) :
    Nat → Nat → Option (List Char) → RetryTrace T
  | _, 0, lastError =>
      ⟨.error (lastError.getD ("Unknown error".data)), 0, []⟩
  | attempt, fuel + 1, _ =>
      match op attempt with
      | .ok r => ⟨.ok r, 1, []⟩
      | .error e =>
          if is_retryable e = .no ∨ fuel = 0 then
            ⟨.error e, 1, []⟩
          else
            let rest := withRetryLoop op (attempt + 1) fuel (some e)
            ⟨rest.result, rest.calls + 1, (attempt, is_retryable e) :: rest.backoffs⟩

/-- `with_retry(max_retries, operation)`. -/
def with_retry {T : Type} (max_retries : Nat)
    (op : Nat → Except (List Char) T) : RetryTrace T :=
  withRetryLoop op 1 max_retries none

/-! ### `src/utils.rs` — output-format helpers -/

/-- `format_to_extension`: `str::starts_with` chain from `src/utils.rs`. -/
def format_to_extension (format : List Char) : List Char :=
  if ("mp3".data).isPrefixOf format then "mp3".data
  else if ("pcm".data).isPrefixOf format || ("wav".data).isPrefixOf format then
    "wav".data
  else if ("ulaw".data).isPrefixOf format || ("mulaw".data).isPrefixOf format then
    "ulaw".data
  else if ("opus".data).isPrefixOf format then "opus".data
  else "mp3".data

/-- The `elevenlabs_rs::OutputFormat` variants named by `src/utils.rs` (the
enum itself lives in the SDK crate; only the variant identities matter). -/
inductive OutputFormat where
  | Mp3_22050Hz32kbps
  | Mp3_44100Hz32kbps
  | Mp3_44100Hz64kbps
  | Mp3_44100Hz96kbps
  | Mp3_44100Hz128kbps
  | Mp3_44100Hz192kbps
  | Pcm8000Hz
  | Pcm16000Hz
  | Pcm22050Hz
  | Pcm24000Hz
  | Pcm44100Hz
  | MuLaw8000Hz
  | Opus48000Hz32kbps
  | Opus48000Hz64kbps
  | Opus48000Hz96kbps
  | Opus48000Hz128kbps
  | Opus48000Hz192kbps
deriving DecidableEq

/-- `parse_output_format`: the `match format { ... }` from `src/utils.rs`
as a sequential equality chain; every arm (including the `_` default)
returns `Ok`. -/
def parse_output_format (format : List Char) : Except (List Char) OutputFormat :=
  .ok <|
    if format = "mp3_22050_32".data then .Mp3_22050Hz32kbps
    else if format = "mp3_44100_32".data then .Mp3_44100Hz32kbps
    else if format = "mp3_44100_64".data then .Mp3_44100Hz64kbps
    else if format = "mp3_44100_96".data then .Mp3_44100Hz96kbps
    else if format = "mp3_44100_128".data then .Mp3_44100Hz128kbps
    else if format = "mp3_44100_192".data then .Mp3_44100Hz192kbps
    else if format = "pcm_8000".data then .Pcm8000Hz
    else if format = "pcm_16000".data then .Pcm16000Hz
    else if format = "pcm_22050".data then .Pcm22050Hz
    else if format = "pcm_24000".data then .Pcm24000Hz
    else if format = "pcm_44100".data then .Pcm44100Hz
    else if format = "ulaw_8000".data ∨ format = "mulaw_8000".data then
      .MuLaw8000Hz
    else if format = "opus_48000_32".data then .Opus48000Hz32kbps
    else if format = "opus_48000_64".data then .Opus48000Hz64kbps
    else if format = "opus_48000_96".data then .Opus48000Hz96kbps
    else if format = "opus_48000_128".data then .Opus48000Hz128kbps
    else if format = "opus_48000_192".data then .Opus48000Hz192kbps
    else if format = "wav_8000".data then .Pcm8000Hz
    else if format = "wav_16000".data then .Pcm16000Hz
    else if format = "wav_22050".data then .Pcm22050Hz
    else if format = "wav_24000".data then .Pcm24000Hz
    else if format = "wav_44100".data then .Pcm44100Hz
    else .Mp3_44100Hz128kbps

/-- The format names recognized by a non-default arm of
`parse_output_format`'s match. -/
def knownFormats : List (List Char) :=
  ["mp3_22050_32".data, "mp3_44100_32".data, "mp3_44100_64".data,
   "mp3_44100_96".data, "mp3_44100_128".data, "mp3_44100_192".data,
   "pcm_8000".data, "pcm_16000".data, "pcm_22050".data, "pcm_24000".data,
   "pcm_44100".data, "ulaw_8000".data, "mulaw_8000".data,
   "opus_48000_32".data, "opus_48000_64".data, "opus_48000_96".data,
   "opus_48000_128".data, "opus_48000_192".data,
   "wav_8000".data, "wav_16000".data, "wav_22050".data, "wav_24000".data,
   "wav_44100".data]

/-! ### `src/validation/voice_settings.rs`

The settings are `f32` used only through order comparisons against the
exactly-representable constants `0.0` and `1.0`; the claims' inputs are
likewise exactly representable, so the comparisons coincide with the
rational order and the values are embedded as `ℚ`. -/

def MIN_VALUE : ℚ := 0

def MAX_VALUE : ℚ := 1

/-- `validate_stability`. -/
def validate_stability (value : ℚ) : Except String ℚ :=
  if ¬(MIN_VALUE ≤ value ∧ value ≤ MAX_VALUE) then
    .error "Stability must be between 0.0 and 1.0"
  else
    .ok value

/-- `validate_similarity_boost`. -/
def validate_similarity_boost (value : ℚ) : Except String ℚ :=
  if ¬(MIN_VALUE ≤ value ∧ value ≤ MAX_VALUE) then
    .error "Similarity boost must be between 0.0 and 1.0"
  else
    .ok value

/-- `validate_style`. -/
def validate_style (value : ℚ) : Except String ℚ :=
  if ¬(MIN_VALUE ≤ value ∧ value ≤ MAX_VALUE) then
    .error "Style must be between 0.0 and 1.0"
  else
    .ok value

/-- One `if let Some(v) = arg { validate(v)?; }` step of
`validate_voice_settings`. -/
def validateOpt (f : ℚ → Except String ℚ) : Option ℚ → Except String Unit
  | some v => (f v).map fun _ => ()
  | none => .ok ()

/-- `validate_voice_settings`: each provided value is validated with `?`,
`None` values are skipped. -/
def validate_voice_settings (stability similarity_boost style : Option ℚ) :
    Except String Unit :=
  (validateOpt validate_stability stability).bind fun _ =>
    (validateOpt validate_similarity_boost similarity_boost).bind fun _ =>
      validateOpt validate_style style

/-! ### `src/config.rs` — the persistent `Config` record -/

/-- `McpConfig`. -/
structure McpConfig where
  enable_tools : Option String
  disable_tools : Option String
  disable_admin : Bool
  disable_destructive : Bool
  read_only : Bool
deriving DecidableEq

/-- `McpConfig::default()` (derived `Default`). -/
def McpConfig.default : McpConfig :=
  ⟨none, none, false, false, false⟩

/-- `Config`. -/
structure Config where
  api_key : Option String
  default_voice : Option String
  default_model : Option String
  default_output_format : Option String
  mcp : McpConfig
deriving DecidableEq

/-- `Config::default()` (derived `Default`). -/
def Config.default : Config :=
  ⟨none, none, none, none, McpConfig.default⟩

/-- Outcome of `Config::set`/`Config::unset`: the (possibly mutated)
receiver, the returned `Result`, and the sequence of whole-file
config writes performed by `save()` (the file write itself is the
only effect of `save` that matters here). -/
structure SetOutcome where
  config : Config
  result : Except String Unit
  writes : List Config

/-- `Config::set`: the unknown-key arm returns `Err` before any field is
assigned and before `save()` is reached; known-key arms assign the field
and then `save()` the mutated record. -/
def Config.set (c : Config) (key value : String) : SetOutcome :=
  if key = "api_key" then
    let c' := { c with api_key := some value }
    ⟨c', .ok (), [c']⟩
  else if key = "default_voice" then
    let c' := { c with default_voice := some value }
    ⟨c', .ok (), [c']⟩
  else if key = "default_model" then
    let c' := { c with default_model := some value }
    ⟨c', .ok (), [c']⟩
  else if key = "default_output_format" then
    let c' := { c with default_output_format := some value }
    ⟨c', .ok (), [c']⟩
  else
    ⟨c, .error ("Unknown config key: " ++ key), []⟩

/-- `Config::unset`, same shape as `Config::set`. -/
def Config.unset (c : Config) (key : String) : SetOutcome :=
  if key = "api_key" then
    let c' := { c with api_key := none }
    ⟨c', .ok (), [c']⟩
  else if key = "default_voice" then
    let c' := { c with default_voice := none }
    ⟨c', .ok (), [c']⟩
  else if key = "default_model" then
    let c' := { c with default_model := none }
    ⟨c', .ok (), [c']⟩
  else if key = "default_output_format" then
    let c' := { c with default_output_format := none }
    ⟨c', .ok (), [c']⟩
  else
    ⟨c, .error ("Unknown config key: " ++ key), []⟩

/-- The key allowlist shared by `Config::set` and `Config::unset`. -/
def configKeys : List String :=
  ["api_key", "default_voice", "default_model", "default_output_format"]

/-! ### TOML round trip for `Config`

Modelled from the spec: `Config::save`/`Config::load` delegate the text
encoding to the `toml`/`serde` crates, which are not part of this
repository; the spec states the schema ("config file load/save (TOML to a
fixed schema)", "writing a Config to TOML and reading it back yields an
equal struct").  The round trip is modelled at the level of the TOML
document (key/value pairs plus the `[mcp]` table): a `None` field is
omitted on write, a missing optional field reads back as `None`, a
missing table or flag falls back to the `#[serde(default)]` default. -/

/-- A TOML scalar of the Config schema. -/
inductive TomlValue where
  | str (s : String)
  | bool (b : Bool)
deriving DecidableEq

/-- A TOML document of the Config schema: root key/value pairs and the
optional `[mcp]` table. -/
structure TomlDoc where
  root : List (String × TomlValue)
  mcp : Option (List (String × TomlValue))
deriving DecidableEq

/-- Serialize one optional string field: `None` emits nothing. -/
def optPair (key : String) : Option String → List (String × TomlValue)
  | some s => [(key, .str s)]
  | none => []

/-- Modelled from the spec: `toml::to_string_pretty` on `Config`
(`Config::save`), at document level. -/
def Config.save (c : Config) : TomlDoc :=
  { root :=
      optPair "api_key" c.api_key ++
      optPair "default_voice" c.default_voice ++
      optPair "default_model" c.default_model ++
      optPair "default_output_format" c.default_output_format
    mcp := some <|
      optPair "enable_tools" c.mcp.enable_tools ++
      optPair "disable_tools" c.mcp.disable_tools ++
      [("disable_admin", .bool c.mcp.disable_admin),
       ("disable_destructive", .bool c.mcp.disable_destructive),
       ("read_only", .bool c.mcp.read_only)] }

/-- First value bound to `key` in a table. -/
def lookupKV (key : String) : List (String × TomlValue) → Option TomlValue
  | [] => none
  | (k, v) :: rest => if k = key then some v else lookupKV key rest

/-- Read an optional string field (missing ⇒ `None`). -/
def getStr (table : List (String × TomlValue)) (key : String) : Option String :=
  match lookupKV key table with
  | some (.str s) => some s
  | _ => none

/-- Read a `#[serde(default)]` boolean field (missing ⇒ `false`). -/
def getBool (table : List (String × TomlValue)) (key : String) : Bool :=
  match lookupKV key table with
  | some (.bool b) => b
  | _ => false

/-- Modelled from the spec: `toml::from_str` into `Config`
(`Config::load`), at document level. -/
def Config.load (d : TomlDoc) : Config :=
  { api_key := getStr d.root "api_key"
    default_voice := getStr d.root "default_voice"
    default_model := getStr d.root "default_model"
    default_output_format := getStr d.root "default_output_format"
    mcp :=
      match d.mcp with
      | none => McpConfig.default
      | some t =>
          { enable_tools := getStr t "enable_tools"
            disable_tools := getStr t "disable_tools"
            disable_admin := getBool t "disable_admin"
            disable_destructive := getBool t "disable_destructive"
            read_only := getBool t "read_only" } }

/-! ### `src/audio.rs` — `StreamingPlayer` playback thread

Bytes are opaque (`Nat`); the decoder and the sink are outside the
repository, so the observable modelled here is the list of byte
sequences handed to `Decoder::new` (each is then appended to the sink
when it decodes).  The thread's loop is driven by the events it
observes on the channel: a received chunk or a 100 ms receive timeout,
followed (when the sender is dropped) by disconnection.  The
early-exit guard in the timeout branch (`sink.empty() && rx.try_recv().is_err()`)
consumes no bytes and is resolved by the real-time sink state; the
model follows the run in which the thread keeps consuming. -/

def MIN_CHUNK_SIZE : Nat := 4096

/-- One channel observation of the playback thread. -/
inductive AEvent where
  | chunk (data : List Nat)
  | timeout

/-- The `Ok(chunk)` branch: extend the buffer; once `MIN_CHUNK_SIZE` is
reached hand the whole buffer to the decoder and drain its first half.
Returns the new buffer and the decode inputs produced. -/
def stepChunk (buffer data : List Nat) : List Nat × List (List Nat) :=
  let buffer := buffer ++ data
  if MIN_CHUNK_SIZE ≤ buffer.length then
    let playback_data := buffer
    let keep := buffer.length / 2
    let buffer :=
      if 0 < keep ∧ keep < playback_data.length then buffer.drop keep
      else buffer
    (buffer, [playback_data])
  else
    (buffer, [])

/-- The playback thread's whole run: process the events in order, then
the `Disconnected` branch hands any remaining buffer to the decoder.
Returns every byte sequence passed to `Decoder::new`, in order. -/
def playerRun : List AEvent → List Nat → List (List Nat)
  | [], buffer => if buffer.isEmpty then [] else [buffer]
  | .chunk data :: evs, buffer =>
      let (buffer', out) := stepChunk buffer data
      out ++ playerRun evs buffer'
  | .timeout :: evs, buffer =>
      (if buffer.isEmpty then [] else [buffer]) ++ playerRun evs []

/-- The concatenation of the chunk payloads of an event list: the byte
stream pushed through `send_chunk` in arrival order. -/
def streamOf : List AEvent → List Nat
  | [] => []
  | .chunk data :: evs => data ++ streamOf evs
  | .timeout :: evs => streamOf evs

/-- Ghost mirror of `playerRun` that tracks the buffer as the index
window `[bufStart, total)` into the full byte stream instead of as the
bytes themselves; it returns the decode inputs as index segments. -/
def segRun : List AEvent → Nat → Nat → List (Nat × Nat)
  | [], bufStart, total => if total - bufStart = 0 then [] else [(bufStart, total)]
  | .chunk data :: evs, bufStart, total =>
      let total' := total + data.length
      if MIN_CHUNK_SIZE ≤ total' - bufStart then
        let len := total' - bufStart
        let keep := len / 2
        let bufStart' :=
          if 0 < keep ∧ keep < len then bufStart + keep else bufStart
        (bufStart, total') :: segRun evs bufStart' total'
      else
        segRun evs bufStart total'
  | .timeout :: evs, bufStart, total =>
      (if total - bufStart = 0 then [] else [(bufStart, total)]) ++
        segRun evs total total

/-- The contiguous segment `[a, b)` of a list. -/
def seg (l : List Nat) (p : Nat × Nat) : List Nat :=
  (l.drop p.1).take (p.2 - p.1)

/-- `covers lo hi segs`: walking the segments in order, each next segment
starts no later than the already-covered frontier and the frontier
finally reaches `hi` — together the segments cover `[lo, hi)`. -/
def covers : Nat → Nat → List (Nat × Nat) → Prop
  | lo, hi, [] => hi ≤ lo
  | lo, hi, (a, b) :: rest => a ≤ lo ∧ covers (max lo b) hi rest

/-! ## Theorems -/

instance {ε α : Type} [DecidableEq ε] [DecidableEq α] :
    DecidableEq (Except ε α) := fun a b =>
  match a, b with
  | .ok x, .ok y =>
      if h : x = y then .isTrue (by rw [h]) else .isFalse (by simp [h])
  | .error x, .error y =>
      if h : x = y then .isTrue (by rw [h]) else .isFalse (by simp [h])
  | .ok _, .error _ => .isFalse (by simp)
  | .error _, .ok _ => .isFalse (by simp)

/-- C5: `validate_voice_settings` succeeds exactly when every provided
argument lies in the closed interval `[0, 1]`; `(Some 2.0, None, None)`
fails, `(Some 0.5, Some 0.75, Some 0.25)` succeeds, and both boundary
values `0.0` and `1.0` succeed in every position. -/
lemma exceptUnit_bind_ok (x y : Except String Unit) :
    (x.bind fun _ => y) = .ok () ↔ (x = .ok () ∧ y = .ok ()) := by
  cases x with
  | error e => simp [Except.bind]
  | ok v => cases v; simp [Except.bind]

lemma validateOpt_ok_iff (msg : String) (o : Option ℚ) :
    validateOpt
      (fun v => if ¬(MIN_VALUE ≤ v ∧ v ≤ MAX_VALUE) then Except.error msg
                else Except.ok v) o = Except.ok () ↔
      ∀ x ∈ o, 0 ≤ x ∧ x ≤ 1 := by
  cases o with
  | none => simp [validateOpt]
  | some v =>
    by_cases h : MIN_VALUE ≤ v ∧ v ≤ MAX_VALUE
    · simp only [MIN_VALUE, MAX_VALUE] at h
      simp [validateOpt, MIN_VALUE, MAX_VALUE, h, Except.map]
    · simp only [MIN_VALUE, MAX_VALUE] at h
      simp [validateOpt, MIN_VALUE, MAX_VALUE, h, Except.map]

theorem C5_validate_voice_settings :
    (∀ st sb sty : Option ℚ,
      validate_voice_settings st sb sty = .ok () ↔
        ((∀ x ∈ st, 0 ≤ x ∧ x ≤ 1) ∧ (∀ x ∈ sb, 0 ≤ x ∧ x ≤ 1) ∧
          (∀ x ∈ sty, 0 ≤ x ∧ x ≤ 1)))
    ∧ validate_voice_settings (some 2) none none ≠ .ok ()
    ∧ validate_voice_settings (some (1/2)) (some (3/4)) (some (1/4)) = .ok ()
    ∧ validate_voice_settings (some 0) (some 1) (some 0) = .ok ()
    ∧ validate_voice_settings (some 1) (some 0) (some 1) = .ok () := by
  have key : ∀ st sb sty : Option ℚ,
      validate_voice_settings st sb sty = .ok () ↔
        ((∀ x ∈ st, 0 ≤ x ∧ x ≤ 1) ∧ (∀ x ∈ sb, 0 ≤ x ∧ x ≤ 1) ∧
          (∀ x ∈ sty, 0 ≤ x ∧ x ≤ 1)) := by
    intro st sb sty
    show ((validateOpt validate_stability st).bind fun _ =>
        (validateOpt validate_similarity_boost sb).bind fun _ =>
          validateOpt validate_style sty) = .ok () ↔ _
    rw [exceptUnit_bind_ok, exceptUnit_bind_ok,
      show validate_stability = fun v =>
        if ¬(MIN_VALUE ≤ v ∧ v ≤ MAX_VALUE) then
          Except.error "Stability must be between 0.0 and 1.0"
        else Except.ok v from rfl,
      show validate_similarity_boost = fun v =>
        if ¬(MIN_VALUE ≤ v ∧ v ≤ MAX_VALUE) then
          Except.error "Similarity boost must be between 0.0 and 1.0"
        else Except.ok v from rfl,
      show validate_style = fun v =>
        if ¬(MIN_VALUE ≤ v ∧ v ≤ MAX_VALUE) then
          Except.error "Style must be between 0.0 and 1.0"
        else Except.ok v from rfl,
      validateOpt_ok_iff, validateOpt_ok_iff, validateOpt_ok_iff]
  refine ⟨key, fun h => ?_, ?_, ?_, ?_⟩
  · have := (key _ _ _).mp h
    simp at this
  · exact (key _ _ _).mpr (by norm_num)
  · exact (key _ _ _).mpr (by norm_num)
  · exact (key _ _ _).mpr (by norm_num)

/-- C5 witness: the main equivalence applied at the concrete settings
`(Some 0.5, Some 0.75, Some 0.25)`. -/
theorem C5_witness :
    validate_voice_settings (some (1/2)) (some (3/4)) (some (1/4)) = .ok () :=
  (C5_validate_voice_settings.1 (some (1/2)) (some (3/4)) (some (1/4))).mpr
    (by norm_num)

/-- C7: for every key outside the allowlist, `Config::set` and
`Config::unset` return `Err`, leave every field unchanged and perform no
file write; and no key ever modifies the `mcp` sub-config. -/
theorem C7_config_unknown_key :
    (∀ (c : Config) (key value : String), key ∉ configKeys →
      (c.set key value).config = c ∧ (c.set key value).writes = [] ∧
      (c.set key value).result = .error ("Unknown config key: " ++ key) ∧
      (c.unset key).config = c ∧ (c.unset key).writes = [] ∧
      (c.unset key).result = .error ("Unknown config key: " ++ key))
    ∧ (∀ (c : Config) (key value : String),
      ((c.set key value).config).mcp = c.mcp ∧
      ((c.unset key).config).mcp = c.mcp) := by
  constructor
  · intro c key value h
    simp only [configKeys, List.mem_cons, List.mem_singleton, not_or] at h
    obtain ⟨h1, h2, h3, h4, -⟩ := h
    simp [Config.set, Config.unset, h1, h2, h3, h4]
  · intro c key value
    unfold Config.set Config.unset
    constructor <;> split_ifs <;> rfl

/-- C7 witness: the unknown key `"mcp"` at the default config. -/
theorem C7_witness :
    (Config.default.set "mcp" "x").config = Config.default ∧
    (Config.default.set "mcp" "x").writes = [] ∧
    (Config.default.set "mcp" "x").result =
      .error ("Unknown config key: " ++ "mcp") ∧
    (Config.default.unset "mcp").config = Config.default ∧
    (Config.default.unset "mcp").writes = [] ∧
    (Config.default.unset "mcp").result =
      .error ("Unknown config key: " ++ "mcp") :=
  C7_config_unknown_key.1 Config.default "mcp" "x" (by decide)

lemma format_to_extension_cases (s : List Char) :
    format_to_extension s = "mp3".data ∨ format_to_extension s = "wav".data ∨
    format_to_extension s = "ulaw".data ∨ format_to_extension s = "opus".data := by
  unfold format_to_extension
  split_ifs <;> simp

/-- C8: `format_to_extension` maps `"mp3_44100_128"` to `"mp3"`,
`"pcm_16000"` to `"wav"`, `"ulaw_8000"` to `"ulaw"`, `"opus_48000_128"` to
`"opus"`, any string matching no recognized prefix to `"mp3"`, and the
function is idempotent. -/
theorem C8_format_to_extension :
    format_to_extension ("mp3_44100_128".data) = "mp3".data
    ∧ format_to_extension ("pcm_16000".data) = "wav".data
    ∧ format_to_extension ("ulaw_8000".data) = "ulaw".data
    ∧ format_to_extension ("opus_48000_128".data) = "opus".data
    ∧ (∀ s, ("mp3".data).isPrefixOf s = false → ("pcm".data).isPrefixOf s = false →
        ("wav".data).isPrefixOf s = false → ("ulaw".data).isPrefixOf s = false →
        ("mulaw".data).isPrefixOf s = false → ("opus".data).isPrefixOf s = false →
        format_to_extension s = "mp3".data)
    ∧ (∀ s, format_to_extension (format_to_extension s) = format_to_extension s) := by
  refine ⟨by decide, by decide, by decide, by decide, ?_, ?_⟩
  · intro s h1 h2 h3 h4 h5 h6
    simp [format_to_extension, h1, h2, h3, h4, h5, h6]
  · intro s
    rcases format_to_extension_cases s with h | h | h | h <;> rw [h] <;> decide

/-- C8 witness: the unrecognized-format clause applied at `"flac"`. -/
theorem C8_witness : format_to_extension ("flac".data) = "mp3".data :=
  C8_format_to_extension.2.2.2.2.1 ("flac".data) (by decide) (by decide)
    (by decide) (by decide) (by decide) (by decide)

set_option maxHeartbeats 1600000 in
/-- C9: `parse_output_format` is total — every input maps to `Ok` of some
`OutputFormat`; every string outside the recognized name set maps to the
default `Mp3_44100Hz128kbps`; and each `wav_*` name maps to the PCM
format of the same sample rate. -/
theorem C9_parse_output_format :
    (∀ s, ∃ f, parse_output_format s = .ok f)
    ∧ (∀ s, s ∉ knownFormats →
        parse_output_format s = .ok .Mp3_44100Hz128kbps)
    ∧ parse_output_format ("wav_8000".data) = .ok .Pcm8000Hz
    ∧ parse_output_format ("wav_16000".data) = .ok .Pcm16000Hz
    ∧ parse_output_format ("wav_22050".data) = .ok .Pcm22050Hz
    ∧ parse_output_format ("wav_24000".data) = .ok .Pcm24000Hz
    ∧ parse_output_format ("wav_44100".data) = .ok .Pcm44100Hz := by
  refine ⟨fun s => ⟨_, rfl⟩, ?_, by decide, by decide, by decide, by decide,
    by decide⟩
  intro s h
  simp only [knownFormats, List.mem_cons, List.not_mem_nil, or_false,
    not_or] at h
  obtain ⟨n1, n2, n3, n4, n5, n6, n7, n8, n9, n10, n11, n12, n13, n14, n15,
    n16, n17, n18, n19, n20, n21, n22, n23⟩ := h
  unfold parse_output_format
  rw [if_neg n1, if_neg n2, if_neg n3, if_neg n4, if_neg n5, if_neg n6,
    if_neg n7, if_neg n8, if_neg n9, if_neg n10, if_neg n11,
    if_neg (not_or.mpr ⟨n12, n13⟩), if_neg n14, if_neg n15, if_neg n16,
    if_neg n17, if_neg n18, if_neg n19, if_neg n20, if_neg n21, if_neg n22,
    if_neg n23]

/-- C9 witness: the default clause applied at the unrecognized name
`"txt"`. -/
theorem C9_witness : parse_output_format ("txt".data) = .ok .Mp3_44100Hz128kbps :=
  C9_parse_output_format.2.1 ("txt".data) (by decide)

/-- C6: serializing a `Config` to TOML and deserializing the result is
the identity, for every `Config` — including the optional fields and the
nested `McpConfig`. -/
theorem C6_config_toml_round_trip (c : Config) :
    Config.load (Config.save c) = c := by
  obtain ⟨ak, dv, dm, dof, et, dt, da, dd, ro⟩ := c
  cases ak <;> cases dv <;> cases dm <;> cases dof <;> cases et <;> cases dt <;>
    simp [Config.save, Config.load, optPair, getStr, getBool, lookupKV]

lemma pow_le_U64 {a : Nat} (h : a ≤ 55) : ¬ U64_MAX < 2 ^ (a - 1) := by
  have hpow : (2:Nat) ^ (a - 1) ≤ 2 ^ 54 :=
    Nat.pow_le_pow_right (by norm_num) (by omega)
  have hbound : (2:Nat) ^ 54 ≤ U64_MAX := by norm_num [U64_MAX]
  exact Nat.not_lt.mpr (le_trans hpow hbound)

lemma mul_pow_le_U64 {a : Nat} (h : a ≤ 55) :
    ¬ U64_MAX < INITIAL_BACKOFF_MS * 2 ^ (a - 1) := by
  have hpow : (2:Nat) ^ (a - 1) ≤ 2 ^ 54 :=
    Nat.pow_le_pow_right (by norm_num) (by omega)
  have h1 : INITIAL_BACKOFF_MS * 2 ^ (a - 1) ≤ 1000 * 2 ^ 54 := by
    unfold INITIAL_BACKOFF_MS
    exact Nat.mul_le_mul_left _ hpow
  have h2 : (1000:Nat) * 2 ^ 54 ≤ U64_MAX := by norm_num [U64_MAX]
  exact Nat.not_lt.mpr (le_trans h1 h2)

/-- C3 counterexample: the claim asserts the `Retryable::Yes` delay is
`min(base * 2^(attempt-1), cap)` plus jitter for every `attempt ≥ 1`, but
at `attempt = 56` the `u64` multiplication `1000 * 2^55` overflows and the
function panics instead of returning a delay. -/
theorem C3_counterexample : calculate_backoff 56 Retryable.yes 0 = none := by
  decide

/-- C3 (amended: for `Retryable::Yes` restricted to `1 ≤ attempt ≤ 55`,
where the checked `u64` arithmetic does not overflow): the delay is
`min(base * 2^(attempt-1), cap)` plus the nonnegative jitter
`rand * delay / 4000`, with base 1000 ms and cap 30000 ms; for
`Retryable::YesWithBackoff` the deterministic part is the fixed larger
base `4 * 1000` ms independent of attempt; for `Retryable::No` the delay
is zero. -/
theorem C3_backoff_delay :
    (∀ attempt rand, 1 ≤ attempt → attempt ≤ 55 →
      calculate_backoff attempt .yes rand =
        some (min (INITIAL_BACKOFF_MS * 2 ^ (attempt - 1)) MAX_BACKOFF_MS +
          rand % 2 ^ 32 *
            min (INITIAL_BACKOFF_MS * 2 ^ (attempt - 1)) MAX_BACKOFF_MS / 4000))
    ∧ (∀ attempt rand, calculate_backoff attempt .yesWithBackoff rand =
        some (INITIAL_BACKOFF_MS * 4 +
          rand % 2 ^ 32 * (INITIAL_BACKOFF_MS * 4) / 4000))
    ∧ (∀ attempt rand, calculate_backoff attempt .no rand = some 0) := by
  refine ⟨?_, ?_, fun attempt rand => rfl⟩
  · intro a rand h1 h2
    have ha : ¬ a = 0 := by omega
    simp [calculate_backoff, ha, pow_le_U64 h2, mul_pow_le_U64 h2]
  · intro a rand
    have hmin : min (INITIAL_BACKOFF_MS * 4) MAX_BACKOFF_MS =
        INITIAL_BACKOFF_MS * 4 := by norm_num [INITIAL_BACKOFF_MS, MAX_BACKOFF_MS]
    simp [calculate_backoff, hmin]

/-- C3 witness: the `Retryable::Yes` clause at `attempt = 2`,
`rand = 2000`: delay `min(1000·2, 30000) = 2000` plus jitter
`2000·2000/4000 = 1000`. -/
theorem C3_witness : calculate_backoff 2 Retryable.yes 2000 = some 3000 := by
  have h := C3_backoff_delay.1 2 2000 (by norm_num) (by norm_num)
  rw [h]
  norm_num [INITIAL_BACKOFF_MS, MAX_BACKOFF_MS]

lemma withRetryLoop_backoffs {T : Type} (op : Nat → Except (List Char) T) :
    ∀ (fuel attempt : Nat) (le : Option (List Char)) p,
      p ∈ (withRetryLoop op attempt fuel le).backoffs →
      attempt ≤ p.1 ∧ p.1 + 2 ≤ attempt + fuel ∧ p.2 ≠ .no := by
  intro fuel
  induction fuel with
  | zero => intro attempt le p hp; simp [withRetryLoop] at hp
  | succ n ih =>
    intro attempt le p hp
    cases hop : op attempt with
    | ok r => simp [withRetryLoop, hop] at hp
    | error e =>
      by_cases hc : is_retryable e = .no ∨ n = 0
      · simp [withRetryLoop, hop, hc] at hp
      · simp only [withRetryLoop, hop, if_neg hc, List.mem_cons] at hp
        rcases hp with hp | hp
        · have hn : n ≠ 0 := fun h => hc (Or.inr h)
          have hr : ¬ is_retryable e = .no := fun h => hc (Or.inl h)
          subst hp
          exact ⟨le_refl _, by omega, hr⟩
        · obtain ⟨ha, hb, hr⟩ := ih (attempt + 1) (some e) p hp
          exact ⟨by omega, by omega, hr⟩

/-- C10 counterexample: the claim asserts `calculate_backoff` with
`Retryable::Yes` reaches no arithmetic-panic branch whenever
`1 ≤ attempt ≤ 64`, but already at `attempt = 64` the multiplication
`1000 * 2^63` overflows `u64` (the power itself does not), so the call
panics. -/
theorem C10_counterexample : calculate_backoff 64 Retryable.yes 0 = none := by
  decide

/-- C10 (amended: the panic-free precondition is `1 ≤ attempt ≤ 55`, not
`1 ≤ attempt ≤ 64`): `attempt = 0` underflows the `u32` subtraction,
`attempt ≥ 56` overflows checked `u64` arithmetic (for `56 ≤ attempt ≤ 64`
the multiplication `1000 * 2^(attempt-1)`, for `attempt ≥ 65` already the
power), and under `1 ≤ attempt ≤ 55` no panic branch is reachable;
`with_retry` passes `calculate_backoff` only attempts in
`1..max_retries` (exclusive) with a retryable kind, so every call site is
panic-free whenever `max_retries ≤ 56`. -/
theorem C10_backoff_totality :
    (∀ attempt rand, 1 ≤ attempt → attempt ≤ 55 →
      (calculate_backoff attempt .yes rand).isSome = true)
    ∧ (∀ rand, calculate_backoff 0 .yes rand = none)
    ∧ (∀ attempt rand, 56 ≤ attempt →
      calculate_backoff attempt .yes rand = none)
    ∧ (∀ (T : Type) (maxRetries : Nat) (op : Nat → Except (List Char) T) p,
      p ∈ (with_retry maxRetries op).backoffs →
      1 ≤ p.1 ∧ p.1 + 1 ≤ maxRetries ∧ p.2 ≠ .no)
    ∧ (∀ (T : Type) (maxRetries : Nat) (op : Nat → Except (List Char) T)
        p rand, maxRetries ≤ 56 → p ∈ (with_retry maxRetries op).backoffs →
      (calculate_backoff p.1 p.2 rand).isSome = true) := by
  have hsites : ∀ (T : Type) (maxRetries : Nat)
      (op : Nat → Except (List Char) T) p,
      p ∈ (with_retry maxRetries op).backoffs →
      1 ≤ p.1 ∧ p.1 + 1 ≤ maxRetries ∧ p.2 ≠ .no := by
    intro T maxRetries op p hp
    obtain ⟨ha, hb, hr⟩ := withRetryLoop_backoffs op maxRetries 1 none p hp
    exact ⟨ha, by omega, hr⟩
  have hyes : ∀ attempt rand, 1 ≤ attempt → attempt ≤ 55 →
      (calculate_backoff attempt .yes rand).isSome = true := by
    intro a rand h1 h2
    have ha : ¬ a = 0 := by omega
    simp [calculate_backoff, ha, pow_le_U64 h2, mul_pow_le_U64 h2]
  refine ⟨hyes, fun rand => rfl, ?_, hsites, ?_⟩
  · intro a rand h56
    have ha : ¬ a = 0 := by omega
    by_cases hp : U64_MAX < 2 ^ (a - 1)
    · simp [calculate_backoff, ha, hp]
    · have hlow : (2:Nat) ^ 55 ≤ 2 ^ (a - 1) :=
        Nat.pow_le_pow_right (by norm_num) (by omega)
      have hmul : U64_MAX < INITIAL_BACKOFF_MS * 2 ^ (a - 1) := by
        have h1 : (1000:Nat) * 2 ^ 55 ≤ INITIAL_BACKOFF_MS * 2 ^ (a - 1) := by
          unfold INITIAL_BACKOFF_MS
          exact Nat.mul_le_mul_left _ hlow
        have h2 : U64_MAX < (1000:Nat) * 2 ^ 55 := by norm_num [U64_MAX]
        omega
      simp [calculate_backoff, ha, hp, hmul]
  · intro T maxRetries op p rand hmax hp
    obtain ⟨h1, h2, hr⟩ := hsites T maxRetries op p hp
    match hkind : p.2 with
    | .yes => exact hyes p.1 rand h1 (by omega)
    | .yesWithBackoff => simp [calculate_backoff]
    | .no => exact absurd hkind hr

/-- C10 witness: the panic-free clause at `attempt = 3`. -/
theorem C10_witness : (calculate_backoff 3 Retryable.yes 5).isSome = true :=
  C10_backoff_totality.1 3 5 (by norm_num) (by norm_num)

lemma withRetryLoop_calls_le {T : Type} (op : Nat → Except (List Char) T) :
    ∀ (fuel attempt : Nat) (le : Option (List Char)),
      (withRetryLoop op attempt fuel le).calls ≤ fuel := by
  intro fuel
  induction fuel with
  | zero => intro attempt le; simp [withRetryLoop]
  | succ n ih =>
    intro attempt le
    cases hop : op attempt with
    | ok r => simp [withRetryLoop, hop]
    | error e =>
      by_cases hc : is_retryable e = .no ∨ n = 0
      · simp [withRetryLoop, hop, hc]
      · simp only [withRetryLoop, hop, if_neg hc]
        have := ih (attempt + 1) (some e)
        omega

lemma withRetryLoop_ok {T : Type} (op : Nat → Except (List Char) T) :
    ∀ (fuel attempt : Nat) (le : Option (List Char)) (k : Nat) (v : T),
      attempt ≤ k → k < attempt + fuel →
      (∀ i, attempt ≤ i → i < k → ∃ e, op i = .error e ∧ is_retryable e ≠ .no) →
      op k = .ok v →
      (withRetryLoop op attempt fuel le).result = .ok v ∧
      (withRetryLoop op attempt fuel le).calls = k + 1 - attempt := by
  intro fuel
  induction fuel with
  | zero => intro attempt le k v h1 h2 _ _; omega
  | succ n ih =>
    intro attempt le k v h1 h2 hpre hk
    by_cases heq : attempt = k
    · subst heq
      refine ⟨by simp [withRetryLoop, hk], ?_⟩
      simp [withRetryLoop, hk]
    · have hlt : attempt < k := by omega
      obtain ⟨e, hope, hre⟩ := hpre attempt (le_refl _) hlt
      have hcond : ¬ (is_retryable e = .no ∨ n = 0) := by
        rintro (h | h)
        · exact hre h
        · omega
      have ihres := ih (attempt + 1) (some e) k v (by omega) (by omega)
        (fun i hi1 hi2 => hpre i (by omega) hi2) hk
      constructor
      · simp only [withRetryLoop, hope, if_neg hcond]
        exact ihres.1
      · simp only [withRetryLoop, hope, if_neg hcond]
        rw [ihres.2]
        omega

lemma withRetryLoop_noRetry {T : Type} (op : Nat → Except (List Char) T) :
    ∀ (fuel attempt : Nat) (le : Option (List Char)) (k : Nat) (e : List Char),
      attempt ≤ k → k < attempt + fuel →
      (∀ i, attempt ≤ i → i < k →
        ∃ e', op i = .error e' ∧ is_retryable e' ≠ .no) →
      op k = .error e → is_retryable e = .no →
      (withRetryLoop op attempt fuel le).result = .error e ∧
      (withRetryLoop op attempt fuel le).calls = k + 1 - attempt := by
  intro fuel
  induction fuel with
  | zero => intro attempt le k e h1 h2 _ _ _; omega
  | succ n ih =>
    intro attempt le k e h1 h2 hpre hk hno
    by_cases heq : attempt = k
    · subst heq
      have hc : is_retryable e = .no ∨ n = 0 := Or.inl hno
      refine ⟨by simp [withRetryLoop, hk, hc], ?_⟩
      simp [withRetryLoop, hk, hc]
    · have hlt : attempt < k := by omega
      obtain ⟨e', hope, hre⟩ := hpre attempt (le_refl _) hlt
      have hcond : ¬ (is_retryable e' = .no ∨ n = 0) := by
        rintro (h | h)
        · exact hre h
        · omega
      have ihres := ih (attempt + 1) (some e') k e (by omega) (by omega)
        (fun i hi1 hi2 => hpre i (by omega) hi2) hk hno
      constructor
      · simp only [withRetryLoop, hope, if_neg hcond]
        exact ihres.1
      · simp only [withRetryLoop, hope, if_neg hcond]
        rw [ihres.2]
        omega

lemma withRetryLoop_allFail {T : Type} (op : Nat → Except (List Char) T) :
    ∀ (fuel attempt : Nat) (le : Option (List Char)) (err : Nat → List Char),
      1 ≤ fuel →
      (∀ i, attempt ≤ i → i < attempt + fuel → op i = .error (err i)) →
      (∀ i, attempt ≤ i → i + 1 < attempt + fuel →
        is_retryable (err i) ≠ .no) →
      (withRetryLoop op attempt fuel le).result =
        .error (err (attempt + fuel - 1)) := by
  intro fuel
  induction fuel with
  | zero => intro attempt le err h1; omega
  | succ n ih =>
    intro attempt le err _ hall hretry
    have hope : op attempt = .error (err attempt) :=
      hall attempt (le_refl _) (by omega)
    by_cases hn : n = 0
    · subst hn
      have hc : is_retryable (err attempt) = .no ∨ (0:Nat) = 0 := Or.inr rfl
      have : attempt + 1 - 1 = attempt := by omega
      simp [withRetryLoop, hope, hc, this]
    · have hre : is_retryable (err attempt) ≠ .no :=
        hretry attempt (le_refl _) (by omega)
      have hcond : ¬ (is_retryable (err attempt) = .no ∨ n = 0) := by
        rintro (h | h)
        · exact hre h
        · exact hn h
      have ihres := ih (attempt + 1) (some (err attempt)) err (by omega)
        (fun i hi1 hi2 => hall i (by omega) (by omega))
        (fun i hi1 hi2 => hretry i (by omega) (by omega))
      have hidx : attempt + (n + 1) - 1 = attempt + 1 + n - 1 := by omega
      rw [hidx]
      simp only [withRetryLoop, hope, if_neg hcond]
      exact ihres

lemma withRetryLoop_stop_bound {T : Type} (op : Nat → Except (List Char) T)
    (k : Nat) (e : List Char) (hk : op k = .error e)
    (hno : is_retryable e = .no) :
    ∀ (fuel attempt : Nat) (le : Option (List Char)), attempt ≤ k →
      (withRetryLoop op attempt fuel le).calls ≤ k + 1 - attempt := by
  intro fuel
  induction fuel with
  | zero => intro attempt le h; simp [withRetryLoop]
  | succ n ih =>
    intro attempt le h
    cases hop : op attempt with
    | ok r =>
      simp [withRetryLoop, hop]
      omega
    | error e' =>
      by_cases hc : is_retryable e' = .no ∨ n = 0
      · simp [withRetryLoop, hop, hc]
        omega
      · have hlt : attempt < k := by
          rcases Nat.lt_or_ge attempt k with h' | h'
          · exact h'
          · exfalso
            have : attempt = k := by omega
            subst this
            rw [hop] at hk
            cases hk
            exact hc (Or.inl hno)
        simp only [withRetryLoop, hop, if_neg hc]
        have := ih (attempt + 1) (some e') (by omega)
        omega

/-- C1: `with_retry(max_retries, op)` invokes `op` at most `max_retries`
times; if the first `k-1` invocations fail retryably and the `k`-th
succeeds (`k ≤ max_retries`), it returns that `Ok` result; if the `k`-th
invocation fails with a `Retryable::No` error after retryable failures, it
returns that error immediately with exactly `k` invocations; and if all
`max_retries ≥ 1` invocations fail (the first `max_retries - 1`
retryably), it returns the last error. -/
theorem C1_with_retry (T : Type) (maxRetries : Nat)
    (op : Nat → Except (List Char) T) :
    (with_retry maxRetries op).calls ≤ maxRetries
    ∧ (∀ k v, 1 ≤ k → k ≤ maxRetries →
        (∀ i, 1 ≤ i → i < k → ∃ e, op i = .error e ∧ is_retryable e ≠ .no) →
        op k = .ok v →
        (with_retry maxRetries op).result = .ok v ∧
        (with_retry maxRetries op).calls = k)
    ∧ (∀ k e, 1 ≤ k → k ≤ maxRetries →
        (∀ i, 1 ≤ i → i < k → ∃ e', op i = .error e' ∧ is_retryable e' ≠ .no) →
        op k = .error e → is_retryable e = .no →
        (with_retry maxRetries op).result = .error e ∧
        (with_retry maxRetries op).calls = k)
    ∧ (∀ err : Nat → List Char, 1 ≤ maxRetries →
        (∀ i, 1 ≤ i → i ≤ maxRetries → op i = .error (err i)) →
        (∀ i, 1 ≤ i → i < maxRetries → is_retryable (err i) ≠ .no) →
        (with_retry maxRetries op).result = .error (err maxRetries)) := by
  refine ⟨withRetryLoop_calls_le op maxRetries 1 none, ?_, ?_, ?_⟩
  · intro k v h1 h2 hpre hk
    have h := withRetryLoop_ok op maxRetries 1 none k v h1 (by omega) hpre hk
    refine ⟨h.1, ?_⟩
    have h2 := h.2
    simp only [with_retry]
    omega
  · intro k e h1 h2 hpre hk hno
    have h := withRetryLoop_noRetry op maxRetries 1 none k e h1 (by omega)
      hpre hk hno
    refine ⟨h.1, ?_⟩
    have h2 := h.2
    simp only [with_retry]
    omega
  · intro err h1 hall hretry
    have h := withRetryLoop_allFail op maxRetries 1 none err h1
      (fun i hi1 hi2 => hall i hi1 (by omega))
      (fun i hi1 hi2 => hretry i hi1 (by omega))
    have hidx : 1 + maxRetries - 1 = maxRetries := by omega
    rw [hidx] at h
    exact h

/-- Concrete operation for the C1 witness: attempt 1 fails with a
retryable server error, every later attempt succeeds with 7. -/
def opW : Nat → Except (List Char) Nat :=
  fun i => if i = 1 then .error ("500 server error".data) else .ok 7

/-- C1 witness: the first-success clause applied to `opW` with
`max_retries = 3`: the second invocation succeeds, so the result is
`Ok 7` after exactly 2 calls. -/
theorem C1_witness :
    (with_retry 3 opW).result = .ok 7 ∧ (with_retry 3 opW).calls = 2 :=
  (C1_with_retry Nat 3 opW).2.1 2 7 (by norm_num) (by norm_num)
    (fun i hi1 hi2 => by
      have : i = 1 := by omega
      subst this
      exact ⟨"500 server error".data, rfl, by decide⟩)
    (by decide)

/-- C2 counterexample: the error text `"404 429"` contains `"429"`, yet
`parse_api_error` classifies it as `NotFound` (the 404 classifier runs
first in the if-chain), not as `RateLimited` as the claim requires. -/
theorem C2_counterexample :
    containsSub (lowerChars ("404 429".data)) ("429".data) = true ∧
    parse_api_error ("404 429".data) = .notFound ("Unknown resource".data) ∧
    parse_api_error ("404 429".data) ≠ .rateLimited := by
  refine ⟨by decide, by decide, by decide⟩

/-- C2 (amended: each containment clause holds only when no
earlier-checked classifier of `parse_api_error`'s if-chain matches the
text): an error containing `"429"` that matches none of the
missing-api-key, unauthorized, forbidden and not-found classifiers maps
to `RateLimited` with `Retryable::YesWithBackoff`; an error containing
`"404"` that matches none of the missing-api-key, unauthorized and
forbidden classifiers maps to `NotFound` with `Retryable::No`, and after
such an error at invocation `k`, `with_retry` performs no invocation
beyond `k`, regardless of how many attempts remain. -/
theorem C2_classifier :
    (∀ e, containsSub (lowerChars e) ("429".data) = true →
      is_missing_api_key e = false → is_unauthorized e = false →
      is_forbidden e = false → is_not_found e = false →
      parse_api_error e = .rateLimited ∧
      (parse_api_error e).retryable = .yesWithBackoff)
    ∧ (∀ e, containsSub (lowerChars e) ("404".data) = true →
      is_missing_api_key e = false → is_unauthorized e = false →
      is_forbidden e = false →
      parse_api_error e = .notFound ("Unknown resource".data) ∧
      (parse_api_error e).retryable = .no)
    ∧ (∀ (T : Type) (maxRetries k : Nat) (op : Nat → Except (List Char) T)
        (e : List Char), op k = .error e →
      containsSub (lowerChars e) ("404".data) = true →
      is_missing_api_key e = false → is_unauthorized e = false →
      is_forbidden e = false → 1 ≤ k →
      (with_retry maxRetries op).calls ≤ k) := by
  have h404 : ∀ e, containsSub (lowerChars e) ("404".data) = true →
      is_missing_api_key e = false → is_unauthorized e = false →
      is_forbidden e = false →
      parse_api_error e = .notFound ("Unknown resource".data) ∧
      (parse_api_error e).retryable = .no := by
    intro e hc hm hu hf
    have hn : is_not_found e = true := by
      simp [is_not_found, hc]
    refine ⟨?_, ?_⟩ <;> simp [parse_api_error, hm, hu, hf, hn, ApiError.retryable]
  refine ⟨?_, h404, ?_⟩
  · intro e hc hm hu hf hn
    have hr : is_rate_limited e = true := by
      simp [is_rate_limited, hc]
    refine ⟨?_, ?_⟩ <;>
      simp [parse_api_error, hm, hu, hf, hn, hr, ApiError.retryable]
  · intro T maxRetries k op e hk hc hm hu hf h1
    have hno : is_retryable e = .no := by
      have := (h404 e hc hm hu hf).2
      simpa [is_retryable] using this
    have h := withRetryLoop_stop_bound op k e hk hno maxRetries 1 none (by omega)
    simp only [with_retry]
    omega

/-- C2 witness: the amended 429 clause applied to the concrete error
text `"http status 429"`, which matches no earlier classifier. -/
theorem C2_witness :
    parse_api_error ("http status 429".data) = .rateLimited ∧
    (parse_api_error ("http status 429".data)).retryable = .yesWithBackoff :=
  C2_classifier.1 ("http status 429".data) (by decide) (by decide) (by decide)
    (by decide) (by decide)

/-- Extracting the window `[pre.length, pre.length + buf.length)` of
`pre ++ buf ++ rest` recovers `buf`. -/
lemma seg_append (pre buf rest : List Nat) :
    seg (pre ++ buf ++ rest) (pre.length, pre.length + buf.length) = buf := by
  unfold seg
  simp only [List.append_assoc]
  rw [List.drop_left' rfl]
  have h : pre.length + buf.length - pre.length = buf.length := by omega
  rw [h, List.take_left' rfl]

/-- Every extracted window is a contiguous segment (infix) of the list. -/
lemma seg_isInfix (l : List Nat) (p : Nat × Nat) : seg l p <:+: l := by
  have hp := List.take_prefix (p.2 - p.1) (l.drop p.1)
  have hs := List.drop_suffix p.1 l
  exact hp.isInfix.trans hs.isInfix

/-- C4 counterexample: a single 4096-byte chunk triggers a decode of the
whole buffer followed by a drain of only its first half, so the remaining
2048 bytes are handed to the decoder a second time on disconnect — the
bytes forwarded for decoding are not the concatenation of the chunks. -/
theorem C4_counterexample :
    (playerRun [AEvent.chunk (List.replicate 4096 (0:Nat))] []).flatten ≠
      streamOf [AEvent.chunk (List.replicate 4096 (0:Nat))] := by
  have key : ∀ l : List Nat, l.length = 4096 →
      (playerRun [AEvent.chunk l] []).flatten ≠ streamOf [AEvent.chunk l] := by
    intro l hl
    have hne : l.drop 2048 ≠ [] := by
      intro h0
      have hd := congrArg List.length h0
      simp [hl] at hd
    have h1 : playerRun [AEvent.chunk l] [] = [l, l.drop 2048] := by
      simp [playerRun, stepChunk, MIN_CHUNK_SIZE, hl, hne]
    intro h
    rw [h1] at h
    have hlen := congrArg List.length h
    simp [streamOf, hl] at hlen
  exact key (List.replicate 4096 0) (by rw [List.length_replicate])

/-- `playerRun` is simulated by the index-segment run `segRun`: with
`pre` the bytes already drained from the buffer and `buf` the current
buffer contents, the decode inputs are exactly the `segRun` windows
extracted from the full byte stream. -/
lemma playerRun_eq_segRun :
    ∀ (evs : List AEvent) (pre buf : List Nat),
      playerRun evs buf =
        (segRun evs pre.length (pre.length + buf.length)).map
          (seg (pre ++ buf ++ streamOf evs)) := by
  intro evs
  induction evs with
  | nil =>
    intro pre buf
    cases buf with
    | nil => simp [playerRun, segRun]
    | cons b bs =>
      have hts : ¬ pre.length + (b :: bs).length - pre.length = 0 := by
        simp
      simp only [playerRun, List.isEmpty_cons, Bool.false_eq_true,
        if_false, segRun, if_neg hts, List.map_cons, List.map_nil]
      rw [show streamOf [] = ([] : List Nat) from rfl, seg_append]
  | cons ev rest ih =>
    cases ev with
    | chunk data =>
      intro pre buf
      have hlapp : (buf ++ data).length = buf.length + data.length := by simp
      have hstream : streamOf (AEvent.chunk data :: rest) =
          data ++ streamOf rest := rfl
      have hfull : pre ++ buf ++ (data ++ streamOf rest) =
          pre ++ (buf ++ data) ++ streamOf rest := by
        simp [List.append_assoc]
      have he3 : pre.length + buf.length + data.length =
          pre.length + (buf ++ data).length := by omega
      have he4 : pre.length + (buf ++ data).length - pre.length =
          (buf ++ data).length := by omega
      show (stepChunk buf data).2 ++ playerRun rest (stepChunk buf data).1 = _
      rw [hstream, hfull]
      simp only [segRun, he3, he4]
      by_cases hmin : MIN_CHUNK_SIZE ≤ (buf ++ data).length
      · rw [if_pos hmin]
        have hcond : 0 < (buf ++ data).length / 2 ∧
            (buf ++ data).length / 2 < (buf ++ data).length := by
          unfold MIN_CHUNK_SIZE at hmin
          omega
        rw [if_pos hcond]
        simp only [stepChunk, if_pos hmin, if_pos hcond, List.cons_append,
          List.nil_append, List.map_cons]
        rw [seg_append]
        refine congrArg (List.cons (buf ++ data)) ?_
        have ihx := ih
          (pre ++ (buf ++ data).take ((buf ++ data).length / 2))
          ((buf ++ data).drop ((buf ++ data).length / 2))
        rw [List.append_assoc pre ((buf ++ data).take ((buf ++ data).length / 2))
            ((buf ++ data).drop ((buf ++ data).length / 2)),
          List.take_append_drop] at ihx
        have hl1 : (pre ++
            (buf ++ data).take ((buf ++ data).length / 2)).length =
            pre.length + (buf ++ data).length / 2 := by
          simp only [List.length_append, List.length_take]
          omega
        have hl2 : pre.length + (buf ++ data).length / 2 +
            ((buf ++ data).drop ((buf ++ data).length / 2)).length =
            pre.length + (buf ++ data).length := by
          simp only [List.length_drop]
          omega
        rw [hl1, hl2] at ihx
        exact ihx
      · rw [if_neg hmin]
        simp only [stepChunk, if_neg hmin, List.nil_append]
        exact ih pre (buf ++ data)
    | timeout =>
      intro pre buf
      have hstream : streamOf (AEvent.timeout :: rest) = streamOf rest := rfl
      have ihx := ih (pre ++ buf) []
      simp only [List.append_nil, List.length_append, List.length_nil,
        Nat.add_zero] at ihx
      cases buf with
      | nil =>
        simp only [playerRun, segRun, hstream, List.isEmpty_nil, if_true,
          List.nil_append, List.append_nil, List.length_nil, Nat.add_zero,
          Nat.sub_self, if_pos rfl]
        simpa using ihx
      | cons b bs =>
        have hts : ¬ pre.length + (b :: bs).length - pre.length = 0 := by
          simp
        simp only [playerRun, segRun, hstream, List.isEmpty_cons,
          Bool.false_eq_true, if_false, if_neg hts, List.map_append,
          List.map_cons, List.map_nil, List.cons_append, List.nil_append]
        rw [seg_append]
        refine congrArg (List.cons (b :: bs)) ?_
        exact ihx

lemma covers_mono :
    ∀ (segs : List (Nat × Nat)) (lo lo' hi : Nat),
      covers lo hi segs → lo ≤ lo' → covers lo' hi segs := by
  intro segs
  induction segs with
  | nil =>
    intro lo lo' hi h hle
    simp only [covers] at *
    omega
  | cons p rest ih =>
    intro lo lo' hi h hle
    obtain ⟨a, b⟩ := p
    obtain ⟨h1, h2⟩ := h
    exact ⟨by omega, ih _ _ _ h2 (max_le_max hle (le_refl b))⟩

lemma segRun_covers :
    ∀ (evs : List AEvent) (s t : Nat), s ≤ t →
      covers s (t + (streamOf evs).length) (segRun evs s t) := by
  intro evs
  induction evs with
  | nil =>
    intro s t hst
    by_cases h : t - s = 0
    · simp only [segRun, if_pos h, streamOf, covers, List.length_nil]
      omega
    · simp only [segRun, if_neg h, streamOf, covers, List.length_nil]
      refine ⟨le_refl s, ?_⟩
      rw [Nat.max_eq_right hst]
      omega
  | cons ev rest ih =>
    cases ev with
    | chunk data =>
      intro s t hst
      have hlen : (streamOf (AEvent.chunk data :: rest)).length =
          data.length + (streamOf rest).length := by
        simp [streamOf]
      by_cases hc : MIN_CHUNK_SIZE ≤ t + data.length - s
      · simp only [segRun, if_pos hc, hlen, covers]
        refine ⟨le_refl s, ?_⟩
        rw [Nat.max_eq_right (by omega : s ≤ t + data.length)]
        have hb' : (if 0 < (t + data.length - s) / 2 ∧
            (t + data.length - s) / 2 < t + data.length - s then
            s + (t + data.length - s) / 2 else s) ≤ t + data.length := by
          split_ifs with h
          · omega
          · omega
        have hrest := ih (if 0 < (t + data.length - s) / 2 ∧
            (t + data.length - s) / 2 < t + data.length - s then
            s + (t + data.length - s) / 2 else s) (t + data.length) hb'
        have hidx : t + (data.length + (streamOf rest).length) =
            t + data.length + (streamOf rest).length := by omega
        rw [hidx]
        exact covers_mono _ _ _ _ hrest hb'
      · simp only [segRun, if_neg hc, hlen]
        have hrest := ih s (t + data.length) (by omega)
        have hidx : t + (data.length + (streamOf rest).length) =
            t + data.length + (streamOf rest).length := by omega
        rw [hidx]
        exact hrest
    | timeout =>
      intro s t hst
      have hlen : (streamOf (AEvent.timeout :: rest)).length =
          (streamOf rest).length := by simp [streamOf]
      by_cases h : t - s = 0
      · simp only [segRun, if_pos h, hlen, List.nil_append]
        have hrest := ih t t (le_refl t)
        exact covers_mono _ _ _ _ hrest (by omega)
      · simp only [segRun, if_neg h, hlen, List.cons_append, List.nil_append,
          covers]
        refine ⟨le_refl s, ?_⟩
        rw [Nat.max_eq_right hst]
        exact ih t t (le_refl t)

/-- C4 (amended: the forwarded windows are in-order contiguous segments
covering every byte, but bytes are duplicated, not forwarded exactly
once): every byte sequence the playback thread hands to the decoder is a
contiguous segment of the concatenation of the processed chunks; the
decode inputs are exactly the `segRun` index windows of that stream in
order, and walking them in order covers every received byte — but after
each size-triggered decode the trailing half of the window is kept and
forwarded again, so the concatenation of decode inputs is not the chunk
concatenation. -/
theorem C4_streaming_forwarding (evs : List AEvent) :
    playerRun evs [] = (segRun evs 0 0).map (seg (streamOf evs))
    ∧ (∀ d ∈ playerRun evs [], d <:+: streamOf evs)
    ∧ covers 0 (streamOf evs).length (segRun evs 0 0) := by
  have hsim := playerRun_eq_segRun evs [] []
  simp only [List.length_nil, List.nil_append, Nat.add_zero] at hsim
  refine ⟨hsim, ?_, ?_⟩
  · intro d hd
    rw [hsim] at hd
    simp only [List.mem_map] at hd
    obtain ⟨p, hp, rfl⟩ := hd
    exact seg_isInfix _ _
  · have hcov := segRun_covers evs 0 0 (le_refl 0)
    simpa using hcov

/-- C4 witness: the infix clause applied to the run with the single
3-byte chunk `[1, 2, 3]` (flushed whole on disconnect). -/
theorem C4_witness : [1, 2, 3] <:+: streamOf [AEvent.chunk [1, 2, 3]] :=
  (C4_streaming_forwarding [AEvent.chunk [1, 2, 3]]).2.1 [1, 2, 3]
    (by simp [playerRun, stepChunk, MIN_CHUNK_SIZE])

end ElevenLabs
